import Mathlib

/-!
Verification development for the SwipImgToVideo repository.

The program assembles a sequence of labeled image tiles ("chunks") into a
scrolling video: a static cover, horizontally panning middle segments and a
static ending, spliced losslessly by an external encoder.  The definitions
below are a shallow embedding of `src/swiping_img/mod.rs`:

* `divideRun`      embeds `BigImg::divide` (the partitioner), including its
  panicking behaviour on `usize`/`u32` subtraction underflow and on
  `step_by(0)`;
* `build`          embeds `BigImgBuilder::build` (validation, `step` clamping,
  `overlap` and `text_down_h` computation with `u32` wrap-around semantics);
* `combainChunk` / `combainChunkFS` embed `BigImg::combain_chunk` (frame
  composition);
* `genEndpointStep`, `genMidStep`, `runMids`, `combain` embed
  `BigImg::generate_endpoint_video`, `BigImg::generate_mid_video` and
  `BigImg::combain` (the pipeline orchestrator), with the file system modelled
  as a `Finset String` of file names under the working directory and the
  external encoder / file writes modelled by boolean oracles in `Env`.

Machine integers are modelled as `Nat`; `u32` wrap-around is explicit
(`u32sub`, reduction mod `U32`) at the places where the source can overflow.
-/

namespace SwipImgToVideo

/-- Modelled from the spec: `Chunk` (defined in the absent source file
`src/swiping_img/chunk.rs`) is a source image reference plus ordered upper and
lower caption lines, immutable for the whole run.  Its contents are never
inspected by the code verified here. -/
structure Chunk where
  imgPath : String
  up : List String
  down : List String
deriving DecidableEq, Repr

/-- The modulus of the `u32` machine integers used throughout the source. -/
abbrev U32 : ℕ := 4294967296

/-- Wrapping (`u32`) subtraction `a - b`, as performed by release-mode Rust;
in debug mode the same underflow panics.  For `b ≤ a < U32` it agrees with
mathematical subtraction. -/
def u32sub (a b : ℕ) : ℕ := (a + (U32 - b % U32)) % U32

/-- Decidable equality for `Except`, used to evaluate the model on concrete
inputs. -/
instance {α β : Type} [DecidableEq α] [DecidableEq β] : DecidableEq (Except α β) :=
  fun a b =>
    match a, b with
    | .error x, .error y =>
      if h : x = y then isTrue (by rw [h]) else isFalse (by simp [h])
    | .error _, .ok _ => isFalse (by simp)
    | .ok _, .error _ => isFalse (by simp)
    | .ok x, .ok y =>
      if h : x = y then isTrue (by rw [h]) else isFalse (by simp [h])

/-- Outcome of running `BigImg::divide`: the function returns a plain `Vec`
(there is no error channel at all), so the only alternative to a list of
windows is a panic (`usize`/`u32` subtraction underflow, or `step_by(0)`). -/
inductive DivideOutcome (α : Type) where
  | ok : List (List α) → DivideOutcome α
  | panic : DivideOutcome α
deriving DecidableEq, Repr

/-- Semantics of Rust's `(0..bound).step_by(stride)` for `stride > 0`: the
start indices `0, stride, 2*stride, …` that are `< bound`; there are
`⌈bound/stride⌉` of them. -/
def stepBy (stride bound : ℕ) : List ℕ :=
  (List.range ((bound + stride - 1) / stride)).map (fun k => k * stride)

/-- The window list of `BigImg::divide` (src/swiping_img/mod.rs lines 105-111)
on the non-panicking path: each start index `i` is mapped to the slice
`chunks[i..(i + step).min(len)]`. -/
def divideCore (chunks : List Chunk) (step overlap : ℕ) : List (List Chunk) :=
  stepBy (step - overlap) (chunks.length - overlap) |>.map
    (fun i => (chunks.drop i).take (min (i + step) chunks.length - i))

/-- `BigImg::divide`.  `len - overlap` is a `usize` subtraction that underflows
(panics) when `len < overlap`; `step - overlap` is a `u32` subtraction that
underflows when `step < overlap`, and `step_by(0)` panics when `step = overlap`. -/
def divideRun (chunks : List Chunk) (step overlap : ℕ) : DivideOutcome Chunk :=
  if chunks.length < overlap then .panic
  else if step ≤ overlap then .panic
  else .ok (divideCore chunks step overlap)

/-- Modelled from the spec: "partitioning's windows, with overlap removed,
reconstruct the original sequence" — the first window kept whole and the
leading `overlap` chunks removed from every later window, all concatenated. -/
def reconstruct (overlap : ℕ) : List (List Chunk) → List Chunk
  | [] => []
  | w :: rest => w ++ (rest.map (fun x => x.drop overlap)).flatten

/-! ### Builder and configuration (`BigImgBuilder`, `BigImg`) -/

/-- The error cases of `BigImgBuilder::build`: the three explicit validation
errors plus failure to read/parse the font file (the font file is read on
every build — the builder has no font setter, and the `unwrap_or` argument is
evaluated eagerly). -/
inductive BuildError where
  | emptyChunks
  | picHTooLarge
  | widthNotDivisible
  | fontError
deriving DecidableEq, Repr

/-- `BigImgBuilder` with the defaults of `BigImgBuilder::new`.  Fields not
relevant to any verified claim (working directory, colors, `max_scale`, the
loaded font value) are omitted. -/
structure Builder where
  chunks : List Chunk
  screenW : ℕ := 1920
  screenH : ℕ := 1080
  step : ℕ := 100
  width_chunk : ℕ := 480
  pic_h : ℕ := 520
  text_up_h : ℕ := 214
  video_cover_time : ℕ := 3
  video_ending_time : ℕ := 3
  video_swip_speed : ℕ := 3
  video_fps : ℕ := 60
deriving DecidableEq, Repr

/-- The validated configuration (`BigImg`), as produced by `build`. -/
structure Config where
  chunks : List Chunk
  screenW : ℕ
  screenH : ℕ
  step : ℕ
  width_chunk : ℕ
  overlap : ℕ
  pic_h : ℕ
  text_up_h : ℕ
  text_down_h : ℕ
  video_cover_time : ℕ
  video_ending_time : ℕ
  video_swip_speed : ℕ
  video_fps : ℕ
deriving DecidableEq, Repr

/-- `BigImgBuilder::build` (src/swiping_img/mod.rs lines 423-474).
`fontOk` models whether reading `./src/swiping_img/MiSans-Demibold.ttf` and
parsing it succeed; this read happens on every build.  `step` is clamped by
`self.step.min(u32::try_from(self.chunks.len()).unwrap_or(0))`;
`overlap = screenW / width_chunk`; `text_down_h = screenH - pic_h - text_up_h`
with `u32` wrap-around (the second subtraction is not guarded). -/
def build (b : Builder) (fontOk : Bool) : Except BuildError Config :=
  if b.chunks.isEmpty then .error .emptyChunks
  else if b.screenH < b.pic_h then .error .picHTooLarge
  else if b.screenW % b.width_chunk ≠ 0 then .error .widthNotDivisible
  else
    let step := min b.step (if b.chunks.length < U32 then b.chunks.length else 0)
    if fontOk then
      .ok { chunks := b.chunks
            screenW := b.screenW
            screenH := b.screenH
            step := step
            width_chunk := b.width_chunk
            overlap := b.screenW / b.width_chunk
            pic_h := b.pic_h
            text_up_h := b.text_up_h
            text_down_h := u32sub (u32sub b.screenH b.pic_h) b.text_up_h
            video_cover_time := b.video_cover_time
            video_ending_time := b.video_ending_time
            video_swip_speed := b.video_swip_speed
            video_fps := b.video_fps }
    else .error .fontError

/-! ### Frame composition (`BigImg::combain_chunk`) -/

/-- The composed still image: overall pixel dimensions plus the list of
chunk bitmaps placed into it, each with its top-left corner `(x, y)`.
The per-chunk bitmap produced by `Chunk::draw_data` is represented by the
chunk itself (its pixel content is outside the verified code). -/
structure Still where
  w : ℕ
  h : ℕ
  placed : List (Chunk × ℕ × ℕ)
deriving DecidableEq, Repr

/-- The error cases of `BigImg::combain_chunk` and of the pipeline around it. -/
inductive CErr where
  | emptyChunk
  | tryFromError
  | drawError
  | copyOutOfBounds
  | saveError
deriving DecidableEq, Repr

/-- `GenericImage::copy_from` of the `image` crate: fails unless the source
rectangle (width `cw`, height `ch`, corner `(x, y)`) fits inside the target. -/
def copyFrom (t : Still) (c : Chunk) (cw ch x y : ℕ) : Except CErr Still :=
  if t.w < cw + x ∨ t.h < ch + y then .error .copyOutOfBounds
  else .ok { t with placed := t.placed ++ [(c, x, y)] }

/-- The drawing loop of `combain_chunk`: chunk `i` is rendered
(`item.draw_data(self)`, success given by the oracle `renderOk`; per the spec
the rendered bitmap has size `(width_chunk, screenH)` — `draw.rs` is not in
the sources) and copied to `(i * width_chunk, 0)`. -/
def placeAll (cfg : Config) (renderOk : Chunk → Bool) :
    List Chunk → ℕ → Still → Except CErr Still
  | [], _, t => .ok t
  | c :: rest, i, t =>
    if renderOk c then
      match copyFrom t c cfg.width_chunk cfg.screenH (i * cfg.width_chunk) 0 with
      | .error e => .error e
      | .ok t' => placeAll cfg renderOk rest (i + 1) t'
    else .error .drawError

/-- `BigImg::combain_chunk` (src/swiping_img/mod.rs lines 126-149) up to the
`save` call: rejects an empty slice, rejects `u32::try_from` failure, creates
the `len * width_chunk × screenH` target (`u32` multiplication, wrapping) and
runs the drawing loop. -/
def combainChunk (cfg : Config) (renderOk : Chunk → Bool) (chunk : List Chunk) :
    Except CErr Still :=
  if chunk.isEmpty then .error .emptyChunk
  else if U32 ≤ chunk.length then .error .tryFromError
  else placeAll cfg renderOk chunk 0
    { w := chunk.length * cfg.width_chunk % U32, h := cfg.screenH, placed := [] }

/-- `combain_chunk` including the `target.save(work_dir.join(save_name))`
step: on success the file `saveName` appears in the working directory
(modelled as the `Finset String` of file names); on any failure the file set
is unchanged. -/
def combainChunkFS (cfg : Config) (renderOk : Chunk → Bool) (saveOk : String → Bool)
    (chunk : List Chunk) (saveName : String) (fs : Finset String) :
    Except CErr Still × Finset String :=
  match combainChunk cfg renderOk chunk with
  | .error e => (.error e, fs)
  | .ok st => if saveOk saveName then (.ok st, insert saveName fs) else (.error .saveError, fs)

/-! ### Pipeline orchestration (`BigImg::combain`) -/

/-- One invocation of the external encoder, with the arguments the source
passes: endpoint mode (`-t duration`), scroll mode (`-t runSeconds`, overlay
`x=-t*speed`), or the final stream-copy concatenation. -/
inductive Call where
  | endpoint (still clip : String) (duration : ℕ)
  | scroll (still clip : String) (runSeconds speed : ℕ)
  | concatSplice (listFile out : String)
deriving DecidableEq, Repr

/-- Oracles for the effectful collaborators: per-chunk rendering, per-file
still saving, per-clip encoder success, the `list.txt` write and the final
concatenation. -/
structure Env where
  renderOk : Chunk → Bool
  saveOk : String → Bool
  encodeOk : String → Bool
  writeListOk : Bool
  concatOk : Bool

/-- Failure cases of a `combain` run. -/
inductive RunError where
  | chunkError (e : CErr)
  | ffmpegError
  | ioError
  | panicked
deriving DecidableEq, Repr

/-- State threaded through a `combain` run: the working-directory file names,
the encoder invocations so far, the `results` vector of produced clip names,
the persisted manifest content (if written) and a log of which chunk slice was
composed into which still. -/
structure RunState where
  fs : Finset String
  calls : List Call
  results : List String
  manifest : Option (List String)
  composed : List (String × List Chunk)
deriving DecidableEq

/-- Zero-padded decimal index, Rust's `format!("{index:0>2}")`. -/
def pad2 (n : ℕ) : String :=
  let s := Nat.repr n
  if s.length < 2 then "0" ++ s else s

/-- Still name of mid segment `i`. -/
def midPng (i : ℕ) : String := pad2 i ++ ".png"

/-- Clip name of mid segment `i` (`with_extension("mp4")`). -/
def midMp4 (i : ℕ) : String := pad2 i ++ ".mp4"

/-- `BigImg::generate_endpoint_video` (lines 165-194): compose the still
`base.png`, then encode it for `dur` seconds into `base.mp4`.  On error the
partial state is preserved. -/
def genEndpointStep (cfg : Config) (env : Env) (chunk : List Chunk) (base : String)
    (dur : ℕ) (st : RunState) : Except (RunError × RunState) RunState :=
  let pic := base ++ ".png"
  let vid := base ++ ".mp4"
  match combainChunkFS cfg env.renderOk env.saveOk chunk pic st.fs with
  | (.error e, fs') => .error (.chunkError e, { st with fs := fs' })
  | (.ok _, fs') =>
    let st1 := { st with fs := fs', composed := st.composed ++ [(pic, chunk)] }
    let st2 := { st1 with calls := st1.calls ++ [.endpoint pic vid dur] }
    if env.encodeOk vid then
      .ok { st2 with fs := insert vid st2.fs, results := st2.results ++ [vid] }
    else .error (.ffmpegError, st2)

/-- `BigImg::generate_mid_video` (lines 209-238): compose the still, then
encode a scroll clip of `video_swip_speed * (chunk.len() - overlap) + 1`
seconds panning at `width_chunk / video_swip_speed` pixels per second.
`chunk.len() - overlap` is a `u32` subtraction (panics on underflow) and
`width_chunk / video_swip_speed` is a `u32` division (panics when the speed
is zero). -/
def genMidStep (cfg : Config) (env : Env) (w : List Chunk) (i : ℕ) (st : RunState) :
    Except (RunError × RunState) RunState :=
  let pic := midPng i
  let vid := midMp4 i
  match combainChunkFS cfg env.renderOk env.saveOk w pic st.fs with
  | (.error e, fs') => .error (.chunkError e, { st with fs := fs' })
  | (.ok _, fs') =>
    let st1 := { st with fs := fs', composed := st.composed ++ [(pic, w)] }
    if w.length < cfg.overlap then .error (.panicked, st1)
    else if cfg.video_swip_speed = 0 then .error (.panicked, st1)
    else
      let runSeconds := cfg.video_swip_speed * (w.length - cfg.overlap) + 1
      let speed := cfg.width_chunk / cfg.video_swip_speed
      let st2 := { st1 with calls := st1.calls ++ [.scroll pic vid runSeconds speed] }
      if env.encodeOk vid then
        .ok { st2 with fs := insert vid st2.fs, results := st2.results ++ [vid] }
      else .error (.ffmpegError, st2)

/-- The `for (index, &chunk) in chunks.iter().enumerate()` loop of `combain`. -/
def runMids (cfg : Config) (env : Env) :
    List (List Chunk) → ℕ → RunState → Except (RunError × RunState) RunState
  | [], _, st => .ok st
  | w :: rest, i, st =>
    match genMidStep cfg env w i st with
    | .error e => .error e
    | .ok st' => runMids cfg env rest (i + 1) st'

/-- Writing the concatenation manifest `list.txt`: one line `file <name>` per
produced clip, in production order. -/
def writeListStep (env : Env) (st : RunState) : Except (RunError × RunState) RunState :=
  let lines := st.results.map (fun s => "file " ++ s)
  if env.writeListOk then
    .ok { st with fs := insert "list.txt" st.fs, manifest := some lines }
  else .error (.ioError, st)

/-- The final `-f concat -c copy` invocation producing `saveName`. -/
def concatStep (env : Env) (saveName : String) (st : RunState) :
    Except (RunError × RunState) RunState :=
  let st1 := { st with calls := st.calls ++ [.concatSplice "list.txt" saveName] }
  if env.concatOk then .ok { st1 with fs := insert saveName st1.fs }
  else .error (.ffmpegError, st1)

/-- The cleanup loop: `remove_file` for every name in `results` (the clip
files only), failures swallowed. -/
def cleanupStep (st : RunState) : RunState :=
  { st with fs := st.results.foldl (fun f r => f.erase r) st.fs }

/-- The result of a `combain` run: `err = none` on success, plus the final
working-directory contents and the logs. -/
structure RunResult where
  err : Option RunError
  fs : Finset String
  calls : List Call
  manifest : Option (List String)
  composed : List (String × List Chunk)
deriving DecidableEq

/-- `BigImg::combain` (src/swiping_img/mod.rs lines 252-312): divide, cover
endpoint segment from the first `overlap` chunks, one mid segment per window,
ending endpoint segment from the last `overlap` chunks, manifest write, final
concatenation, then cleanup of the clip files. -/
def combain (cfg : Config) (env : Env) (saveName : String) : RunResult :=
  match divideRun cfg.chunks cfg.step cfg.overlap with
  | .panic => ⟨some .panicked, ∅, [], none, []⟩
  | .ok windows =>
    let st0 : RunState := ⟨∅, [], [], none, []⟩
    let run : Except (RunError × RunState) RunState := do
      let st1 ← genEndpointStep cfg env (cfg.chunks.take cfg.overlap) "cover"
        cfg.video_cover_time st0
      let st2 ← runMids cfg env windows 0 st1
      let st3 ← genEndpointStep cfg env (cfg.chunks.drop (cfg.chunks.length - cfg.overlap))
        "ending" cfg.video_ending_time st2
      let st4 ← writeListStep env st3
      let st5 ← concatStep env saveName st4
      pure (cleanupStep st5)
    match run with
    | .error (e, st) => ⟨some e, st.fs, st.calls, st.manifest, st.composed⟩
    | .ok st => ⟨none, st.fs, st.calls, st.manifest, st.composed⟩

/-! ### Arithmetic helper lemmas (ceiling division `⌈b/s⌉ = (b + s - 1) / s`) -/

lemma ceil_mul_ge (b s : ℕ) (hs : 0 < s) : b ≤ (b + s - 1) / s * s := by
  have h := Nat.div_add_mod (b + s - 1) s
  have hr : (b + s - 1) % s < s := Nat.mod_lt _ hs
  rw [Nat.mul_comm]
  omega

lemma ceil_pos (b s : ℕ) (hs : 0 < s) (hb : 0 < b) : 0 < (b + s - 1) / s := by
  apply Nat.div_pos _ hs
  omega

lemma ceil_pred_mul_lt (b s : ℕ) (hs : 0 < s) (hb : 0 < b) :
    ((b + s - 1) / s - 1) * s < b := by
  have h := Nat.div_add_mod (b + s - 1) s
  have hr : (b + s - 1) % s < s := Nat.mod_lt _ hs
  have hn : 0 < (b + s - 1) / s := ceil_pos b s hs hb
  rw [Nat.sub_mul, one_mul, Nat.mul_comm]
  omega

lemma lt_of_lt_ceil (b s k : ℕ) (hs : 0 < s) (hk : k < (b + s - 1) / s) : k * s < b := by
  have hb : 0 < b := by
    by_contra h
    have hb0 : b = 0 := by omega
    subst hb0
    have h0 : (0 + s - 1) / s = 0 := Nat.div_eq_of_lt (by omega)
    omega
  calc k * s ≤ ((b + s - 1) / s - 1) * s := Nat.mul_le_mul_right s (by omega)
    _ < b := ceil_pred_mul_lt b s hs hb

/-! ### Partitioner lemmas -/

lemma stepBy_length (s b : ℕ) : (stepBy s b).length = (b + s - 1) / s := by
  simp [stepBy]

lemma stepBy_getElem (s b k : ℕ) (hk : k < (stepBy s b).length) :
    (stepBy s b)[k] = k * s := by
  simp [stepBy]

/-- The literal slice `chunks[i..(i + step).min(len)]` is `take step` after
`drop i`. -/
lemma slice_take (l : List Chunk) (i step : ℕ) :
    (l.drop i).take (min (i + step) l.length - i) = (l.drop i).take step := by
  rcases le_total (i + step) l.length with h | h
  · rw [min_eq_left h]
    congr 1
    omega
  · rw [min_eq_right h]
    rw [List.take_of_length_le, List.take_of_length_le]
    · rw [List.length_drop]
      omega
    · rw [List.length_drop]

lemma divideCore_eq (chunks : List Chunk) (step ov : ℕ) :
    divideCore chunks step ov =
      (stepBy (step - ov) (chunks.length - ov)).map
        (fun i => (chunks.drop i).take step) := by
  unfold divideCore
  exact List.map_congr_left (fun i _ => slice_take chunks i step)

lemma divideCore_length (chunks : List Chunk) (step ov : ℕ) :
    (divideCore chunks step ov).length =
      (chunks.length - ov + (step - ov) - 1) / (step - ov) := by
  rw [divideCore_eq, List.length_map, stepBy_length]

lemma divideCore_get (chunks : List Chunk) (step ov k : ℕ)
    (hk : k < (divideCore chunks step ov).length) :
    (divideCore chunks step ov).get ⟨k, hk⟩ =
      (chunks.drop (k * (step - ov))).take step := by
  rw [List.get_eq_getElem, List.getElem_of_eq (divideCore_eq chunks step ov) hk,
    List.getElem_map]
  rw [stepBy_getElem]

lemma divideCore_length_pos (chunks : List Chunk) (step ov : ℕ)
    (h1 : ov < chunks.length) (h2 : ov < step) :
    0 < (divideCore chunks step ov).length := by
  rw [divideCore_length]
  exact ceil_pos _ _ (by omega) (by omega)

lemma divideCore_head (chunks : List Chunk) (step ov : ℕ)
    (h1 : ov < chunks.length) (h2 : ov < step) :
    (divideCore chunks step ov).head? = some (chunks.take step) := by
  have hlen := divideCore_length_pos chunks step ov h1 h2
  rw [List.head?_eq_getElem?, List.getElem?_eq_getElem hlen]
  have hget := divideCore_get chunks step ov 0 hlen
  rw [List.get_eq_getElem] at hget
  rw [hget]
  simp

lemma divideCore_getLast (chunks : List Chunk) (step ov : ℕ)
    (h1 : ov < chunks.length) (h2 : ov < step)
    (hne : divideCore chunks step ov ≠ []) :
    (divideCore chunks step ov).getLast hne =
      chunks.drop (((divideCore chunks step ov).length - 1) * (step - ov)) := by
  have hlen := divideCore_length_pos chunks step ov h1 h2
  have hidx : (divideCore chunks step ov).length - 1 < (divideCore chunks step ov).length := by
    omega
  rw [List.getLast_eq_getElem]
  have hget := divideCore_get chunks step ov ((divideCore chunks step ov).length - 1) hidx
  rw [List.get_eq_getElem] at hget
  rw [hget]
  apply List.take_of_length_le
  rw [List.length_drop]
  have hceil : chunks.length - ov ≤ (divideCore chunks step ov).length * (step - ov) := by
    rw [divideCore_length]
    exact ceil_mul_ge _ _ (by omega)
  have hsub : ((divideCore chunks step ov).length - 1) * (step - ov) =
      (divideCore chunks step ov).length * (step - ov) - (step - ov) := by
    rw [Nat.sub_mul, one_mul]
  omega

lemma divideCore_consec (chunks : List Chunk) (step ov : ℕ)
    (h1 : ov < chunks.length) (h2 : ov < step) (k : ℕ)
    (hk : k + 1 < (divideCore chunks step ov).length) :
    ((divideCore chunks step ov).get ⟨k, by omega⟩).length = step ∧
    ((divideCore chunks step ov).get ⟨k, by omega⟩).drop (step - ov) =
      ((divideCore chunks step ov).get ⟨k + 1, hk⟩).take ov ∧
    (((divideCore chunks step ov).get ⟨k + 1, hk⟩).take ov).length = ov := by
  have hk0 : k < (divideCore chunks step ov).length := by omega
  have hks : (k + 1) * (step - ov) < chunks.length - ov :=
    lt_of_lt_ceil (chunks.length - ov) (step - ov) (k + 1) (by omega)
      (by rw [← divideCore_length chunks step ov]; exact hk)
  have hsucc : (k + 1) * (step - ov) = k * (step - ov) + (step - ov) := by
    rw [Nat.succ_mul]
  rw [divideCore_get chunks step ov k hk0, divideCore_get chunks step ov (k + 1) hk]
  refine ⟨?_, ?_, ?_⟩
  · rw [List.length_take, List.length_drop]
    omega
  · rw [List.drop_take, List.drop_drop]
    rw [List.take_take]
    have e1 : step - (step - ov) = ov := by omega
    have e2 : min ov step = ov := by omega
    rw [e1, e2, ← hsucc]
  · rw [List.length_take, List.length_take, List.length_drop]
    omega

/-! ### Reconstruction lemmas (windows with overlap removed concatenate back) -/

lemma reconstruct_tail (chunks : List Chunk) (step ov : ℕ)
    (h1 : ov < chunks.length) (h2 : ov < step) (m j : ℕ)
    (hj : 1 ≤ j)
    (hjm : j + m = (chunks.length - ov + (step - ov) - 1) / (step - ov)) :
    ((List.range' j m).map
        (fun k => ((chunks.drop (k * (step - ov))).take step).drop ov)).flatten =
      chunks.drop ((j - 1) * (step - ov) + step) := by
  induction m generalizing j with
  | zero =>
    simp only [List.range'_zero, List.map_nil, List.flatten_nil]
    have hn : j = (chunks.length - ov + (step - ov) - 1) / (step - ov) := by omega
    have hceil : chunks.length - ov ≤ j * (step - ov) := by
      rw [hn]
      exact ceil_mul_ge _ _ (by omega)
    have hsub : (j - 1) * (step - ov) = j * (step - ov) - (step - ov) := by
      rw [Nat.sub_mul, one_mul]
    have hmul : step - ov ≤ j * (step - ov) := Nat.le_mul_of_pos_left _ hj
    symm
    apply List.drop_eq_nil_of_le
    omega
  | succ m ih =>
    rw [List.range'_succ]
    simp only [List.map_cons, List.flatten_cons]
    rw [ih (j + 1) (by omega) (by omega)]
    have e0 : j + 1 - 1 = j := by omega
    rw [e0]
    have lhs1 : ((chunks.drop (j * (step - ov))).take step).drop ov
        = (chunks.drop (j * (step - ov) + ov)).take (step - ov) := by
      rw [List.drop_take, List.drop_drop]
    rw [lhs1]
    have e1 : (j - 1) * (step - ov) + step = j * (step - ov) + ov := by
      have hsub : (j - 1) * (step - ov) = j * (step - ov) - (step - ov) := by
        rw [Nat.sub_mul, one_mul]
      have hmul : step - ov ≤ j * (step - ov) := Nat.le_mul_of_pos_left _ hj
      omega
    rw [e1]
    have e2 : chunks.drop (j * (step - ov) + step)
        = (chunks.drop (j * (step - ov) + ov)).drop (step - ov) := by
      rw [List.drop_drop]
      congr 1
      omega
    rw [e2]
    exact List.take_append_drop _ _

lemma reconstruct_divideCore (chunks : List Chunk) (step ov : ℕ)
    (h1 : ov < chunks.length) (h2 : ov < step) :
    reconstruct ov (divideCore chunks step ov) = chunks := by
  have hn : 0 < (chunks.length - ov + (step - ov) - 1) / (step - ov) :=
    ceil_pos _ _ (by omega) (by omega)
  obtain ⟨m, hm⟩ : ∃ m, (chunks.length - ov + (step - ov) - 1) / (step - ov) = m + 1 :=
    ⟨(chunks.length - ov + (step - ov) - 1) / (step - ov) - 1, by omega⟩
  rw [divideCore_eq]
  unfold stepBy
  rw [List.map_map, hm, List.range_eq_range', List.range'_succ]
  simp only [List.map_cons, reconstruct, List.map_map, Function.comp_def,
    Nat.zero_mul, List.drop_zero, Nat.zero_add]
  rw [reconstruct_tail chunks step ov h1 h2 m 1 le_rfl (by omega)]
  simp only [Nat.sub_self, Nat.zero_mul, Nat.zero_add]
  exact List.take_append_drop _ _

/-! ### Concrete data for witnesses -/

/-- A concrete chunk (the chunk constructed in the repository's own test). -/
def chunkA : Chunk := ⟨"t1", ["value"], ["456"]⟩

/-- Five chunks — the worked example of the spec (5 chunks, step 3, overlap 2). -/
def chunks5 : List Chunk := [chunkA, chunkA, chunkA, chunkA, chunkA]

/-! ### Claim C1 -/

/-- C1: for every chunk list of length `len > overlap` and every
`step > overlap`, the partitioner returns the windows obtained by sliding a
window of length `step` across start indices `[0, len - overlap)` with stride
`step - overlap` (window `k` starts at `k * (step - overlap)`, spans
`chunks[i .. min (i + step) len]`, the start indices exhaust `[0, len - overlap)`);
the first window starts at index `0`, the last window's right edge equals
`len` (it is a full tail of the chunk list), and any two consecutive windows
share exactly `overlap` chunks at their shared boundary (the earlier window
has length `step` and its last `overlap` chunks are the later window's first
`overlap` chunks). -/
theorem C1_divide_sliding_windows (chunks : List Chunk) (step ov : ℕ)
    (h1 : ov < chunks.length) (h2 : ov < step) :
    ∃ ws, divideRun chunks step ov = .ok ws ∧
      ws.length = (chunks.length - ov + (step - ov) - 1) / (step - ov) ∧
      (∀ k (hk : k < ws.length),
        ws.get ⟨k, hk⟩ = (chunks.drop (k * (step - ov))).take step) ∧
      (∀ k, k < ws.length → k * (step - ov) < chunks.length - ov) ∧
      chunks.length - ov ≤ ws.length * (step - ov) ∧
      ws.head? = some (chunks.take step) ∧
      (∀ hne : ws ≠ [],
        ws.getLast hne = chunks.drop ((ws.length - 1) * (step - ov))) ∧
      (∀ k (hk : k + 1 < ws.length),
        (ws.get ⟨k, by omega⟩).length = step ∧
        (ws.get ⟨k, by omega⟩).drop (step - ov) = (ws.get ⟨k + 1, hk⟩).take ov ∧
        ((ws.get ⟨k + 1, hk⟩).take ov).length = ov) := by
  refine ⟨divideCore chunks step ov, ?_, ?_, ?_, ?_, ?_, ?_, ?_, ?_⟩
  · unfold divideRun
    rw [if_neg (by omega), if_neg (by omega)]
  · exact divideCore_length chunks step ov
  · exact fun k hk => divideCore_get chunks step ov k hk
  · intro k hk
    rw [divideCore_length] at hk
    exact lt_of_lt_ceil _ _ k (by omega) hk
  · rw [divideCore_length]
    exact ceil_mul_ge _ _ (by omega)
  · exact divideCore_head chunks step ov h1 h2
  · exact divideCore_getLast chunks step ov h1 h2
  · exact fun k hk => divideCore_consec chunks step ov h1 h2 k hk

/-- Witness for C1 at the spec's worked example: 5 chunks, step 3, overlap 2. -/
theorem C1_witness :
    (2 : ℕ) < chunks5.length ∧ (2 : ℕ) < 3 ∧
    (∃ ws, divideRun chunks5 3 2 = DivideOutcome.ok ws ∧ ws.length = 3 ∧
      ws.head? = some (chunks5.take 3)) := by
  refine ⟨by decide, by decide, ?_⟩
  obtain ⟨ws, hok, hlen, _, _, _, hhead, _⟩ :=
    C1_divide_sliding_windows chunks5 3 2 (by decide) (by decide)
  refine ⟨ws, hok, ?_, hhead⟩
  rw [hlen]
  decide

/-! ### Claim C2 -/

/-- C2 counterexample: for chunk count equal to `overlap` (here 2 chunks,
`overlap = 2`, window size 3 > overlap) the partitioner silently returns zero
windows, and the empty concatenation is not the original sequence — so the
claim's "for all chunk counts" fails at `len = overlap`. -/
theorem C2_counterexample :
    divideRun [chunkA, chunkA] 3 2 = DivideOutcome.ok [] ∧
    reconstruct 2 [] ≠ [chunkA, chunkA] := by
  constructor
  · decide
  · decide

/-- C2 (amended with `len > overlap`): for every chunk list longer than
`overlap` and every window size `step > overlap`, the windows produced by the
partitioner, with the leading `overlap` chunks removed from every window after
the first, concatenate back to exactly the original chunk sequence. -/
theorem C2_reconstruct (chunks : List Chunk) (step ov : ℕ)
    (h1 : ov < chunks.length) (h2 : ov < step) :
    ∃ ws, divideRun chunks step ov = .ok ws ∧ reconstruct ov ws = chunks := by
  refine ⟨divideCore chunks step ov, ?_, reconstruct_divideCore chunks step ov h1 h2⟩
  unfold divideRun
  rw [if_neg (by omega), if_neg (by omega)]

/-- Witness for C2 at the spec's worked example. -/
theorem C2_witness :
    (2 : ℕ) < chunks5.length ∧ (2 : ℕ) < 3 ∧
    (∃ ws, divideRun chunks5 3 2 = DivideOutcome.ok ws ∧ reconstruct 2 ws = chunks5) :=
  ⟨by decide, by decide, C2_reconstruct chunks5 3 2 (by decide) (by decide)⟩

/-! ### Claim C3 -/

/-- C3: the source never returns an explicit error for `len ≤ overlap` —
`divide`'s return type `Vec<&[Chunk]>` has no error channel (`DivideOutcome`
has only `ok` and `panic`).  At `len = overlap` with `step > overlap` it
silently yields zero windows; at `len = overlap` with the build-clamped
`step = overlap` the zero stride of `step_by` panics; at `len < overlap` the
`usize` subtraction `len - overlap` underflows (panics). -/
theorem C3_divide_no_explicit_error :
    divideRun [chunkA, chunkA] 3 2 = DivideOutcome.ok [] ∧
    divideRun [chunkA, chunkA] 2 2 = DivideOutcome.panic ∧
    divideRun [chunkA] 3 2 = DivideOutcome.panic ∧
    (∀ o : DivideOutcome Chunk, o = .panic ∨ ∃ ws, o = .ok ws) := by
  refine ⟨by decide, by decide, by decide, ?_⟩
  intro o
  cases o with
  | ok ws => exact Or.inr ⟨ws, rfl⟩
  | panic => exact Or.inl rfl

/-! ### Builder claims C4, C9, C10 -/

lemma u32sub_eq (a b : ℕ) (h1 : b ≤ a) (h2 : a < U32) : u32sub a b = a - b := by
  unfold u32sub
  rw [Nat.mod_eq_of_lt (show b < U32 by omega)]
  have he : a + (U32 - b) = (a - b) + U32 := by
    have : (0 : ℕ) < U32 := by decide
    omega
  rw [he, Nat.add_mod_right]
  exact Nat.mod_eq_of_lt (by omega)

/-- Characterization of the successful branch of `build`. -/
lemma build_ok_iff (b : Builder) (fontOk : Bool) (cfg : Config) :
    build b fontOk = .ok cfg ↔
      (b.chunks.isEmpty = false ∧ b.pic_h ≤ b.screenH ∧
       b.screenW % b.width_chunk = 0 ∧ fontOk = true ∧
       cfg = { chunks := b.chunks
               screenW := b.screenW
               screenH := b.screenH
               step := min b.step
                 (if b.chunks.length < U32 then b.chunks.length else 0)
               width_chunk := b.width_chunk
               overlap := b.screenW / b.width_chunk
               pic_h := b.pic_h
               text_up_h := b.text_up_h
               text_down_h := u32sub (u32sub b.screenH b.pic_h) b.text_up_h
               video_cover_time := b.video_cover_time
               video_ending_time := b.video_ending_time
               video_swip_speed := b.video_swip_speed
               video_fps := b.video_fps }) := by
  by_cases hempty : b.chunks.isEmpty
  · unfold build
    rw [if_pos hempty]
    simp [hempty]
  · by_cases hpic : b.screenH < b.pic_h
    · unfold build
      rw [if_neg hempty, if_pos hpic]
      simp [Nat.not_le.mpr hpic]
    · by_cases hdiv : b.screenW % b.width_chunk = 0
      · unfold build
        rw [if_neg hempty, if_neg hpic,
          if_neg (show ¬(b.screenW % b.width_chunk ≠ 0) from fun hc => hc hdiv)]
        by_cases hfont : fontOk
        · rw [if_pos hfont]
          rw [Except.ok.injEq]
          constructor
          · intro hl
            exact ⟨Bool.eq_false_iff.mpr hempty, Nat.not_lt.mp hpic, hdiv, hfont, hl.symm⟩
          · rintro ⟨-, -, -, -, rfl⟩
            rfl
        · rw [if_neg hfont]
          simp [hfont]
      · unfold build
        rw [if_neg hempty, if_neg hpic, if_pos hdiv]
        simp [hdiv]

/-- Characterization of the failing branch of `build`. -/
lemma build_error_iff (b : Builder) (fontOk : Bool) :
    (∃ e, build b fontOk = .error e) ↔
      (b.chunks = [] ∨ b.screenH < b.pic_h ∨ b.screenW % b.width_chunk ≠ 0 ∨
        fontOk = false) := by
  constructor
  · rintro ⟨e, he⟩
    by_contra hcon
    push_neg at hcon
    obtain ⟨h1, h2, h3, h4⟩ := hcon
    have hok : build b fontOk = .ok _ := (build_ok_iff b fontOk _).mpr
      ⟨List.isEmpty_eq_false.mpr h1, h2, h3, Bool.ne_false_iff.mp h4, rfl⟩
    rw [he] at hok
    exact absurd hok (by simp)
  · intro h
    cases hb : build b fontOk with
    | error e => exact ⟨e, rfl⟩
    | ok cfg =>
      obtain ⟨h1, h2, h3, h4, -⟩ := (build_ok_iff b fontOk cfg).mp hb
      rcases h with h | h | h | h
      · rw [h] at h1
        exact absurd h1 (by simp)
      · exact absurd h (Nat.not_lt.mpr h2)
      · exact absurd h3 h
      · rw [h4] at h
        exact absurd h (by simp)

/-- A builder holding one chunk, all other fields at their defaults. -/
def bldA : Builder := { chunks := [chunkA] }

/-- The configuration `build bldA true` produces. -/
def cfgAval : Config :=
  { chunks := [chunkA], screenW := 1920, screenH := 1080, step := 1,
    width_chunk := 480, overlap := 4, pic_h := 520, text_up_h := 214,
    text_down_h := 346, video_cover_time := 3, video_ending_time := 3,
    video_swip_speed := 3, video_fps := 60 }

/-- C4 counterexample: with one chunk, `pic_h ≤ screenH` and
`screenW % width_chunk = 0`, the build still fails when the font file read
fails (the font file is read on every build — there is no font setter and the
`unwrap_or` argument is evaluated eagerly) — so "error iff the three
conditions" is false. -/
theorem C4_counterexample :
    build bldA false = Except.error BuildError.fontError ∧
    bldA.chunks ≠ [] ∧ bldA.pic_h ≤ bldA.screenH ∧
    bldA.screenW % bldA.width_chunk = 0 := by
  refine ⟨rfl, by decide, by decide, by decide⟩

/-- C4 (amended): `build` returns an error iff the chunk list is empty, or
`pic_h > screenH`, or `screenW` is not divisible by `width_chunk`, or loading
the font asset fails; when it succeeds and the chunk count is representable in
`u32`, the built `step` is the requested `step` clamped to the chunk count. -/
theorem C4_build_error_iff (b : Builder) (fontOk : Bool) :
    ((∃ e, build b fontOk = .error e) ↔
      (b.chunks = [] ∨ b.screenH < b.pic_h ∨ b.screenW % b.width_chunk ≠ 0 ∨
        fontOk = false)) ∧
    (∀ cfg, build b fontOk = .ok cfg → b.chunks.length < U32 →
      cfg.step = min b.step b.chunks.length) := by
  refine ⟨build_error_iff b fontOk, ?_⟩
  intro cfg h hlen
  obtain ⟨-, -, -, -, hcfg⟩ := (build_ok_iff b fontOk cfg).mp h
  subst hcfg
  dsimp only
  rw [if_pos hlen]

/-- Witness for C4 at a one-chunk builder with a successful font load. -/
theorem C4_witness :
    build bldA true = Except.ok cfgAval ∧ cfgAval.step = min 100 1 := by
  have hok : build bldA true = Except.ok cfgAval := rfl
  refine ⟨hok, ?_⟩
  have h := (C4_build_error_iff bldA true).2 cfgAval hok (by decide)
  simpa [bldA] using h

/-- A builder whose accepted configuration underflows `text_down_h`:
`pic_h = 520`, `text_up_h = 600`, screen height 1080. -/
def bld9 : Builder := { chunks := [chunkA], text_up_h := 600 }

/-- The configuration `build bld9 true` produces: `text_down_h` is the
wrapped-around `u32` value `1080 - 520 - 600 = 2^32 - 40`. -/
def cfg9val : Config :=
  { chunks := [chunkA], screenW := 1920, screenH := 1080, step := 1,
    width_chunk := 480, overlap := 4, pic_h := 520, text_up_h := 600,
    text_down_h := 4294967256, video_cover_time := 3, video_ending_time := 3,
    video_swip_speed := 3, video_fps := 60 }

/-- C9 counterexample: `build` accepts a configuration with
`pic_h + text_up_h > screenH` (520 + 600 > 1080) — only `pic_h ≤ screenH` is
checked — so the unsigned subtraction computing `text_down_h` underflows
(wrapping to `2^32 - 40`; a debug build panics instead). -/
theorem C9_counterexample :
    build bld9 true = Except.ok cfg9val ∧
    cfg9val.screenH < cfg9val.pic_h + cfg9val.text_up_h ∧
    cfg9val.text_down_h = U32 - 40 := by
  refine ⟨rfl, by decide, by decide⟩

/-- C9 (amended): every accepted configuration satisfies `pic_h ≤ screenH`,
but `pic_h + text_up_h ≤ screenH` is not enforced; only under that extra
assumption does `text_down_h` equal `screenH - pic_h - text_up_h`. -/
theorem C9_text_down_h (b : Builder) (fontOk : Bool) (cfg : Config)
    (h : build b fontOk = .ok cfg) :
    cfg.pic_h ≤ cfg.screenH ∧
    (cfg.pic_h + cfg.text_up_h ≤ cfg.screenH → cfg.screenH < U32 →
      cfg.text_down_h = cfg.screenH - cfg.pic_h - cfg.text_up_h) := by
  obtain ⟨h1, h2, h3, h4, hcfg⟩ := (build_ok_iff b fontOk cfg).mp h
  subst hcfg
  dsimp only
  refine ⟨h2, fun hsum hlt => ?_⟩
  rw [u32sub_eq b.screenH b.pic_h h2 hlt]
  rw [u32sub_eq (b.screenH - b.pic_h) b.text_up_h (by omega) (by omega)]

/-- Witness for C9 at the default builder: `text_down_h = 1080 - 520 - 214 = 346`. -/
theorem C9_witness :
    build bldA true = Except.ok cfgAval ∧
    cfgAval.pic_h ≤ cfgAval.screenH ∧
    cfgAval.text_down_h = cfgAval.screenH - cfgAval.pic_h - cfgAval.text_up_h := by
  have hok : build bldA true = Except.ok cfgAval := rfl
  have h := C9_text_down_h bldA true cfgAval hok
  exact ⟨hok, h.1, h.2 (by decide) (by decide)⟩

/-- Four chunks: the chunk count equals the default `overlap` of 4, so
`build` clamps `step` down to 4 = overlap. -/
def bld4 : Builder := { chunks := [chunkA, chunkA, chunkA, chunkA] }

/-- The configuration `build bld4 true` produces: `step = overlap = 4`. -/
def cfg4val : Config :=
  { chunks := [chunkA, chunkA, chunkA, chunkA], screenW := 1920, screenH := 1080,
    step := 4, width_chunk := 480, overlap := 4, pic_h := 520, text_up_h := 214,
    text_down_h := 346, video_cover_time := 3, video_ending_time := 3,
    video_swip_speed := 3, video_fps := 60 }

/-- Two chunks: fewer than the default `overlap` of 4. -/
def bld2 : Builder := { chunks := [chunkA, chunkA] }

/-- The configuration `build bld2 true` produces: 2 chunks, `overlap = 4`. -/
def cfg2val : Config :=
  { chunks := [chunkA, chunkA], screenW := 1920, screenH := 1080, step := 2,
    width_chunk := 480, overlap := 4, pic_h := 520, text_up_h := 214,
    text_down_h := 346, video_cover_time := 3, video_ending_time := 3,
    video_swip_speed := 3, video_fps := 60 }

/-- C10: `divide` is partial — for every configuration accepted by `build`
with `step = overlap` the zero stride makes `divide` panic; for every chunk
list shorter than `overlap` the subtraction `len - overlap` underflows
(panics); and `build` accepts such configurations without an error (a chunk
count equal to the default overlap 4 is clamped to `step = overlap`, and a
chunk count below the overlap is accepted as well). -/
theorem C10_divide_partial :
    (∀ (b : Builder) (fontOk : Bool) (cfg : Config), build b fontOk = .ok cfg →
      cfg.step = cfg.overlap →
      divideRun cfg.chunks cfg.step cfg.overlap = DivideOutcome.panic) ∧
    (∀ (chunks : List Chunk) (step ov : ℕ), chunks.length < ov →
      divideRun chunks step ov = DivideOutcome.panic) ∧
    (build bld4 true = Except.ok cfg4val ∧ cfg4val.step = cfg4val.overlap) ∧
    (build bld2 true = Except.ok cfg2val ∧ cfg2val.chunks.length < cfg2val.overlap) := by
  refine ⟨?_, ?_, ⟨rfl, by decide⟩, ⟨rfl, by decide⟩⟩
  · intro b fontOk cfg _ heq
    unfold divideRun
    split_ifs with hlen hstep
    · rfl
    · rfl
    · exact absurd (le_of_eq heq) hstep
  · intro chunks step ov h
    unfold divideRun
    rw [if_pos h]

/-- Witness for C10: the build-clamped 4-chunk configuration panics in
`divide`, and so does a 1-chunk list with overlap 4. -/
theorem C10_witness :
    divideRun [chunkA, chunkA, chunkA, chunkA] 4 4 = DivideOutcome.panic ∧
    divideRun [chunkA] 3 4 = DivideOutcome.panic := by
  constructor
  · exact C10_divide_partial.1 bld4 true cfg4val rfl (by decide)
  · exact C10_divide_partial.2.1 [chunkA] 3 4 (by decide)

/-! ### Frame-composition lemmas and claim C6 -/

lemma placeAll_ok (cfg : Config) (renderOk : Chunk → Bool) :
    ∀ (rest : List Chunk) (i : ℕ) (t : Still),
      (∀ c ∈ rest, renderOk c = true) →
      (i + rest.length) * cfg.width_chunk ≤ t.w → cfg.screenH ≤ t.h →
      placeAll cfg renderOk rest i t =
        .ok { t with placed := t.placed ++
          (List.enumFrom i rest).map (fun p => (p.2, p.1 * cfg.width_chunk, 0)) }
  | [], i, t, _, _, _ => by
    simp [placeAll]
  | c :: rest, i, t, hr, hw, hh => by
    have hrc : renderOk c = true := hr c (List.mem_cons_self c rest)
    have hw' : (i + 1 + rest.length) * cfg.width_chunk ≤ t.w := by
      rw [show i + 1 + rest.length = i + (c :: rest).length from by
        rw [List.length_cons]; omega]
      exact hw
    have h1 : (i + 1) * cfg.width_chunk ≤ (i + 1 + rest.length) * cfg.width_chunk :=
      Nat.mul_le_mul_right _ (by omega)
    have hsum : cfg.width_chunk + i * cfg.width_chunk = (i + 1) * cfg.width_chunk := by
      ring
    unfold placeAll
    rw [if_pos hrc]
    unfold copyFrom
    rw [if_neg (by push_neg; omega)]
    dsimp only
    rw [placeAll_ok cfg renderOk rest (i + 1)
      { w := t.w, h := t.h, placed := t.placed ++ [(c, i * cfg.width_chunk, 0)] }
      (fun d hd => hr d (List.mem_cons_of_mem c hd)) hw' hh]
    simp

lemma placeAll_ok_renders (cfg : Config) (renderOk : Chunk → Bool) :
    ∀ (rest : List Chunk) (i : ℕ) (t st' : Still),
      placeAll cfg renderOk rest i t = .ok st' →
      ∀ c ∈ rest, renderOk c = true
  | [], _, _, _, _, c, hc => absurd hc (List.not_mem_nil c)
  | c :: rest, i, t, st', h, d, hd => by
    unfold placeAll at h
    by_cases hrc : renderOk c = true
    · rw [if_pos hrc] at h
      rcases List.mem_cons.mp hd with rfl | hd'
      · exact hrc
      · cases hcopy : copyFrom t c cfg.width_chunk cfg.screenH (i * cfg.width_chunk) 0 with
        | error e =>
          rw [hcopy] at h
          exact absurd h (by simp)
        | ok t' =>
          rw [hcopy] at h
          exact placeAll_ok_renders cfg renderOk rest (i + 1) t' st' h d hd'
    · rw [if_neg hrc] at h
      exact absurd h (by simp)

lemma combainChunk_ok (cfg : Config) (renderOk : Chunk → Bool) (chunk : List Chunk)
    (hne : chunk ≠ []) (hlen : chunk.length * cfg.width_chunk < U32)
    (hwc : 0 < cfg.width_chunk) (hr : ∀ c ∈ chunk, renderOk c = true) :
    combainChunk cfg renderOk chunk =
      .ok { w := chunk.length * cfg.width_chunk, h := cfg.screenH,
            placed := chunk.enum.map (fun p => (p.2, p.1 * cfg.width_chunk, 0)) } := by
  have hlen32 : chunk.length < U32 := by
    have : chunk.length ≤ chunk.length * cfg.width_chunk :=
      Nat.le_mul_of_pos_right _ hwc
    omega
  unfold combainChunk
  rw [if_neg (by simpa [List.isEmpty_iff] using hne), if_neg (by omega)]
  rw [Nat.mod_eq_of_lt hlen]
  rw [placeAll_ok cfg renderOk chunk 0 _ hr (by simp) le_rfl]
  rfl

lemma combainChunk_ok_renders (cfg : Config) (renderOk : Chunk → Bool)
    (chunk : List Chunk) (st : Still) (h : combainChunk cfg renderOk chunk = .ok st) :
    ∀ c ∈ chunk, renderOk c = true := by
  unfold combainChunk at h
  split_ifs at h with h1 h2
  exact placeAll_ok_renders cfg renderOk chunk 0 _ st h

lemma combainChunkFS_ok_inv (cfg : Config) (renderOk : Chunk → Bool)
    (saveOk : String → Bool) (chunk : List Chunk) (name : String) (fs fs' : Finset String)
    (st : Still) (h : combainChunkFS cfg renderOk saveOk chunk name fs = (.ok st, fs')) :
    (∀ c ∈ chunk, renderOk c = true) ∧ saveOk name = true ∧ fs' = insert name fs := by
  unfold combainChunkFS at h
  cases hc : combainChunk cfg renderOk chunk with
  | error e =>
    rw [hc] at h
    exact absurd h (by simp)
  | ok st0 =>
    rw [hc] at h
    dsimp only at h
    by_cases hs : saveOk name = true
    · rw [if_pos hs] at h
      rw [Prod.mk.injEq] at h
      exact ⟨combainChunk_ok_renders cfg renderOk chunk st0 hc, hs, h.2.symm⟩
    · rw [if_neg hs] at h
      exact absurd h (by simp)

/-- C6: composing an empty chunk slice fails with an explicit error and leaves
the working directory unchanged; composing a non-empty slice of `n` chunks
(with `n * width_chunk` representable in `u32`) produces and persists a still
of width `n * width_chunk` and height `screenH`, with chunk `i`'s rendered
bitmap placed at `(i * width_chunk, 0)`; and any renderer or file-write
failure propagates (a successful result implies every render and the save
succeeded, and exactly the named file was added). -/
theorem C6_combain_chunk (cfg : Config) (renderOk : Chunk → Bool)
    (saveOk : String → Bool) (chunk : List Chunk) (name : String) (fs : Finset String)
    (hne : chunk ≠ []) (hlen : chunk.length * cfg.width_chunk < U32)
    (hwc : 0 < cfg.width_chunk) :
    combainChunkFS cfg renderOk saveOk [] name fs = (.error .emptyChunk, fs) ∧
    ((∀ c ∈ chunk, renderOk c = true) → saveOk name = true →
      combainChunkFS cfg renderOk saveOk chunk name fs =
        (.ok { w := chunk.length * cfg.width_chunk, h := cfg.screenH,
               placed := chunk.enum.map (fun p => (p.2, p.1 * cfg.width_chunk, 0)) },
         insert name fs)) ∧
    (∀ st fs', combainChunkFS cfg renderOk saveOk chunk name fs = (.ok st, fs') →
      (∀ c ∈ chunk, renderOk c = true) ∧ saveOk name = true ∧ fs' = insert name fs) := by
  refine ⟨rfl, fun hr hs => ?_, fun st fs' h =>
    combainChunkFS_ok_inv cfg renderOk saveOk chunk name fs fs' st h⟩
  unfold combainChunkFS
  rw [combainChunk_ok cfg renderOk chunk hne hlen hwc hr]
  dsimp only
  rw [if_pos hs]

/-- Witness for C6: two chunks, chunk width 480, screen height 1080. -/
theorem C6_witness :
    combainChunkFS cfgAval (fun _ => true) (fun _ => true) [chunkA, chunkA]
        "cover.png" ∅ =
      (.ok { w := 960, h := 1080, placed := [(chunkA, 0, 0), (chunkA, 480, 0)] },
        insert "cover.png" ∅) ∧
    combainChunkFS cfgAval (fun _ => true) (fun _ => true) [] "cover.png" ∅ =
      (.error .emptyChunk, ∅) := by
  have h := C6_combain_chunk cfgAval (fun _ => true) (fun _ => true) [chunkA, chunkA]
    "cover.png" ∅ (by decide) (by decide) (by decide)
  refine ⟨?_, h.1⟩
  have h2 := h.2.1 (fun c _ => rfl) rfl
  rw [h2]
  decide

/-! ### Claim C8: scroll duration and pan speed -/

/-- C8: whenever `generate_mid_video` succeeds on a window of `n` chunks, the
one encoder invocation it appends is a scroll call whose clip duration is
`video_swip_speed * (n - overlap) + 1` seconds and whose overlay pan speed is
`width_chunk / video_swip_speed` pixels per second (`u32` division). -/
theorem C8_mid_duration_speed (cfg : Config) (env : Env) (w : List Chunk) (i : ℕ)
    (st st' : RunState) (h : genMidStep cfg env w i st = .ok st') :
    st'.calls = st.calls ++
      [Call.scroll (midPng i) (midMp4 i)
        (cfg.video_swip_speed * (w.length - cfg.overlap) + 1)
        (cfg.width_chunk / cfg.video_swip_speed)] := by
  unfold genMidStep at h
  dsimp only at h
  rcases hc : combainChunkFS cfg env.renderOk env.saveOk w (midPng i) st.fs with ⟨res, fs2⟩
  rw [hc] at h
  cases res with
  | error e =>
    exact absurd h (by simp)
  | ok st0 =>
    dsimp only at h
    split_ifs at h with h1 h2 h3
    all_goals first
      | exact Except.noConfusion h
      | (rw [Except.ok.injEq] at h
         subst h
         rfl)

/-- The environment in which every render, save, encode and write succeeds. -/
def envAll : Env := ⟨fun _ => true, fun _ => true, fun _ => true, true, true⟩

/-- The empty starting run state. -/
def st0val : RunState := ⟨∅, [], [], none, []⟩

/-- The configuration of the spec's worked example: 5 chunks, screen 960×1080,
chunk width 480 (so overlap 2), step 3. -/
def cfg5 : Config :=
  { chunks := chunks5, screenW := 960, screenH := 1080, step := 3,
    width_chunk := 480, overlap := 2, pic_h := 520, text_up_h := 214,
    text_down_h := 346, video_cover_time := 3, video_ending_time := 3,
    video_swip_speed := 3, video_fps := 60 }

/-- The state after one successful mid-segment step on a 3-chunk window. -/
def st8val : RunState :=
  { fs := insert "00.mp4" (insert "00.png" ∅),
    calls := [Call.scroll "00.png" "00.mp4" 4 160],
    results := ["00.mp4"], manifest := none,
    composed := [("00.png", [chunkA, chunkA, chunkA])] }

/-- Witness for C8: a 3-chunk window with overlap 2 and swipe speed 3 yields a
4-second clip panning at 160 px/s. -/
theorem C8_witness :
    genMidStep cfg5 envAll [chunkA, chunkA, chunkA] 0 st0val = Except.ok st8val ∧
    st8val.calls = st0val.calls ++
      [Call.scroll (midPng 0) (midMp4 0)
        (cfg5.video_swip_speed *
          (([chunkA, chunkA, chunkA] : List Chunk).length - cfg5.overlap) + 1)
        (cfg5.width_chunk / cfg5.video_swip_speed)] := by
  have hok : genMidStep cfg5 envAll [chunkA, chunkA, chunkA] 0 st0val =
      Except.ok st8val := by decide
  exact ⟨hok, C8_mid_duration_speed cfg5 envAll [chunkA, chunkA, chunkA] 0 st0val st8val hok⟩

/-! ### Orchestration lemmas for claims C5 and C7 -/

/-- The scroll call emitted for window `w` at index `i`. -/
def midCall (cfg : Config) (i : ℕ) (w : List Chunk) : Call :=
  .scroll (midPng i) (midMp4 i)
    (cfg.video_swip_speed * (w.length - cfg.overlap) + 1)
    (cfg.width_chunk / cfg.video_swip_speed)

/-- The file names added by the mid-segment loop starting at index `i`, in
execution order, on top of `base`. -/
def midFsAcc (i : ℕ) (ws : List (List Chunk)) (base : Finset String) : Finset String :=
  match ws with
  | [] => base
  | _ :: rest => midFsAcc (i + 1) rest (insert (midMp4 i) (insert (midPng i) base))

lemma combainChunkFS_ok (cfg : Config) (renderOk : Chunk → Bool) (saveOk : String → Bool)
    (chunk : List Chunk) (name : String) (fs : Finset String)
    (hne : chunk ≠ []) (hlen : chunk.length * cfg.width_chunk < U32)
    (hwc : 0 < cfg.width_chunk) (hr : ∀ c ∈ chunk, renderOk c = true)
    (hs : saveOk name = true) :
    combainChunkFS cfg renderOk saveOk chunk name fs =
      (.ok { w := chunk.length * cfg.width_chunk, h := cfg.screenH,
             placed := chunk.enum.map (fun p => (p.2, p.1 * cfg.width_chunk, 0)) },
       insert name fs) := by
  unfold combainChunkFS
  rw [combainChunk_ok cfg renderOk chunk hne hlen hwc hr]
  dsimp only
  rw [if_pos hs]

lemma genEndpointStep_ok (cfg : Config) (env : Env) (chunk : List Chunk) (base : String)
    (dur : ℕ) (st : RunState)
    (hne : chunk ≠ []) (hlen : chunk.length * cfg.width_chunk < U32)
    (hwc : 0 < cfg.width_chunk)
    (hr : ∀ c, env.renderOk c = true) (hs : ∀ n, env.saveOk n = true)
    (he : env.encodeOk (base ++ ".mp4") = true) :
    genEndpointStep cfg env chunk base dur st = .ok
      { fs := insert (base ++ ".mp4") (insert (base ++ ".png") st.fs),
        calls := st.calls ++ [.endpoint (base ++ ".png") (base ++ ".mp4") dur],
        results := st.results ++ [base ++ ".mp4"],
        manifest := st.manifest,
        composed := st.composed ++ [(base ++ ".png", chunk)] } := by
  unfold genEndpointStep
  dsimp only
  rw [combainChunkFS_ok cfg env.renderOk env.saveOk chunk (base ++ ".png") st.fs
    hne hlen hwc (fun c _ => hr c) (hs _)]
  dsimp only
  rw [if_pos he]

lemma genMidStep_ok (cfg : Config) (env : Env) (w : List Chunk) (i : ℕ) (st : RunState)
    (hne : w ≠ []) (hlen : w.length * cfg.width_chunk < U32)
    (hwc : 0 < cfg.width_chunk) (hov : cfg.overlap ≤ w.length)
    (hsw : cfg.video_swip_speed ≠ 0)
    (hr : ∀ c, env.renderOk c = true) (hs : ∀ n, env.saveOk n = true)
    (he : env.encodeOk (midMp4 i) = true) :
    genMidStep cfg env w i st = .ok
      { fs := insert (midMp4 i) (insert (midPng i) st.fs),
        calls := st.calls ++ [midCall cfg i w],
        results := st.results ++ [midMp4 i],
        manifest := st.manifest,
        composed := st.composed ++ [(midPng i, w)] } := by
  unfold genMidStep
  dsimp only
  rw [combainChunkFS_ok cfg env.renderOk env.saveOk w (midPng i) st.fs
    hne hlen hwc (fun c _ => hr c) (hs _)]
  dsimp only
  rw [if_neg (Nat.not_lt.mpr hov), if_neg hsw, if_pos he]
  rfl

lemma genMidStep_encodeFail (cfg : Config) (env : Env) (w : List Chunk) (i : ℕ)
    (st : RunState)
    (hne : w ≠ []) (hlen : w.length * cfg.width_chunk < U32)
    (hwc : 0 < cfg.width_chunk) (hov : cfg.overlap ≤ w.length)
    (hsw : cfg.video_swip_speed ≠ 0)
    (hr : ∀ c, env.renderOk c = true) (hs : ∀ n, env.saveOk n = true)
    (he : env.encodeOk (midMp4 i) = false) :
    genMidStep cfg env w i st = .error (.ffmpegError,
      { fs := insert (midPng i) st.fs,
        calls := st.calls ++ [midCall cfg i w],
        results := st.results,
        manifest := st.manifest,
        composed := st.composed ++ [(midPng i, w)] }) := by
  unfold genMidStep
  dsimp only
  rw [combainChunkFS_ok cfg env.renderOk env.saveOk w (midPng i) st.fs
    hne hlen hwc (fun c _ => hr c) (hs _)]
  dsimp only
  rw [if_neg (Nat.not_lt.mpr hov), if_neg hsw, if_neg (by rw [he]; exact Bool.false_ne_true)]
  rfl

lemma runMids_ok (cfg : Config) (env : Env)
    (hwc : 0 < cfg.width_chunk) (hsw : cfg.video_swip_speed ≠ 0)
    (hr : ∀ c, env.renderOk c = true) (hs : ∀ n, env.saveOk n = true)
    (he : ∀ n, env.encodeOk n = true) :
    ∀ (ws : List (List Chunk)) (i : ℕ) (st : RunState),
      (∀ w ∈ ws, w ≠ [] ∧ w.length * cfg.width_chunk < U32 ∧ cfg.overlap ≤ w.length) →
      runMids cfg env ws i st = .ok
        { fs := midFsAcc i ws st.fs,
          calls := st.calls ++ (List.enumFrom i ws).map (fun p => midCall cfg p.1 p.2),
          results := st.results ++ (List.enumFrom i ws).map (fun p => midMp4 p.1),
          manifest := st.manifest,
          composed := st.composed ++
            (List.enumFrom i ws).map (fun p => (midPng p.1, p.2)) }
  | [], i, st, _ => by
    simp [runMids, midFsAcc]
  | w :: rest, i, st, hws => by
    obtain ⟨hne, hlen, hov⟩ := hws w (List.mem_cons_self w rest)
    unfold runMids
    rw [genMidStep_ok cfg env w i st hne hlen hwc hov hsw hr hs (he _)]
    dsimp only
    rw [runMids_ok cfg env hwc hsw hr hs he rest (i + 1) _
      (fun d hd => hws d (List.mem_cons_of_mem w hd))]
    simp [midFsAcc, List.enumFrom]

lemma runMids_fail (cfg : Config) (env : Env)
    (hwc : 0 < cfg.width_chunk) (hsw : cfg.video_swip_speed ≠ 0)
    (hr : ∀ c, env.renderOk c = true) (hs : ∀ n, env.saveOk n = true) :
    ∀ (ws : List (List Chunk)) (k i : ℕ) (st : RunState),
      k < ws.length →
      (∀ w ∈ ws, w ≠ [] ∧ w.length * cfg.width_chunk < U32 ∧ cfg.overlap ≤ w.length) →
      (∀ j, j < k → env.encodeOk (midMp4 (i + j)) = true) →
      env.encodeOk (midMp4 (i + k)) = false →
      runMids cfg env ws i st = .error (.ffmpegError,
        { fs := insert (midPng (i + k)) (midFsAcc i (ws.take k) st.fs),
          calls := st.calls ++
            (List.enumFrom i (ws.take (k + 1))).map (fun p => midCall cfg p.1 p.2),
          results := st.results ++
            (List.enumFrom i (ws.take k)).map (fun p => midMp4 p.1),
          manifest := st.manifest,
          composed := st.composed ++
            (List.enumFrom i (ws.take (k + 1))).map (fun p => (midPng p.1, p.2)) })
  | [], k, i, st, hk, _, _, _ => absurd hk (by simp)
  | w :: rest, 0, i, st, hk, hws, hprev, hfail => by
    obtain ⟨hne, hlen, hov⟩ := hws w (List.mem_cons_self w rest)
    unfold runMids
    rw [genMidStep_encodeFail cfg env w i st hne hlen hwc hov hsw hr hs
      (by simpa using hfail)]
    simp [midFsAcc, List.enumFrom]
  | w :: rest, k + 1, i, st, hk, hws, hprev, hfail => by
    obtain ⟨hne, hlen, hov⟩ := hws w (List.mem_cons_self w rest)
    unfold runMids
    rw [genMidStep_ok cfg env w i st hne hlen hwc hov hsw hr hs
      (by simpa using hprev 0 (by omega))]
    dsimp only
    rw [runMids_fail cfg env hwc hsw hr hs rest k (i + 1) _ (by simpa using hk)
      (fun d hd => hws d (List.mem_cons_of_mem w hd))
      (fun j hj => by
        have hpj := hprev (j + 1) (by omega)
        rwa [show i + (j + 1) = i + 1 + j from by omega] at hpj)
      (by
        have hfk := hfail
        rwa [show i + (k + 1) = i + 1 + k from by omega] at hfk)]
    rw [show i + (k + 1) = i + 1 + k from by omega]
    simp [midFsAcc, List.enumFrom]

lemma divideCore_window_bounds (chunks : List Chunk) (step ov : ℕ)
    (h1 : ov < chunks.length) (h2 : ov < step) :
    ∀ w ∈ divideCore chunks step ov, ov < w.length ∧ w.length ≤ step := by
  intro w hw
  obtain ⟨⟨k, hk⟩, rfl⟩ := List.mem_iff_get.mp hw
  rw [divideCore_get chunks step ov k hk]
  have hks : k * (step - ov) < chunks.length - ov := by
    rw [divideCore_length] at hk
    exact lt_of_lt_ceil _ _ k (by omega) hk
  rw [List.length_take, List.length_drop]
  omega

lemma combain_ok (cfg : Config) (env : Env) (saveName : String)
    (h1 : cfg.overlap < cfg.chunks.length) (h2 : cfg.overlap < cfg.step)
    (hov : 0 < cfg.overlap) (hstepwc : cfg.step * cfg.width_chunk < U32)
    (hwc : 0 < cfg.width_chunk) (hsw : cfg.video_swip_speed ≠ 0)
    (hr : ∀ c, env.renderOk c = true) (hs : ∀ n, env.saveOk n = true)
    (he : ∀ n, env.encodeOk n = true) (hwl : env.writeListOk = true)
    (hco : env.concatOk = true) :
    combain cfg env saveName =
      { err := none,
        fs := ("cover.mp4" ::
            ((List.enumFrom 0 (divideCore cfg.chunks cfg.step cfg.overlap)).map
              (fun p => midMp4 p.1) ++ ["ending.mp4"])).foldl
          (fun f r => f.erase r)
          (insert saveName (insert "list.txt" (insert "ending.mp4" (insert "ending.png"
            (midFsAcc 0 (divideCore cfg.chunks cfg.step cfg.overlap)
              (insert "cover.mp4" (insert "cover.png" ∅))))))),
        calls := .endpoint "cover.png" "cover.mp4" cfg.video_cover_time ::
          ((List.enumFrom 0 (divideCore cfg.chunks cfg.step cfg.overlap)).map
            (fun p => midCall cfg p.1 p.2) ++
            [.endpoint "ending.png" "ending.mp4" cfg.video_ending_time,
             .concatSplice "list.txt" saveName]),
        manifest := some (("cover.mp4" ::
          ((List.enumFrom 0 (divideCore cfg.chunks cfg.step cfg.overlap)).map
            (fun p => midMp4 p.1) ++ ["ending.mp4"])).map (fun s => "file " ++ s)),
        composed := ("cover.png", cfg.chunks.take cfg.overlap) ::
          ((List.enumFrom 0 (divideCore cfg.chunks cfg.step cfg.overlap)).map
            (fun p => (midPng p.1, p.2)) ++
            [("ending.png", cfg.chunks.drop (cfg.chunks.length - cfg.overlap))]) } := by
  have hdiv : divideRun cfg.chunks cfg.step cfg.overlap =
      .ok (divideCore cfg.chunks cfg.step cfg.overlap) := by
    unfold divideRun
    rw [if_neg (by omega), if_neg (by omega)]
  have hcovlen : (cfg.chunks.take cfg.overlap).length = cfg.overlap := by
    rw [List.length_take]
    omega
  have hcovne : cfg.chunks.take cfg.overlap ≠ [] := by
    intro hx
    rw [hx] at hcovlen
    simp at hcovlen
    omega
  have hcovwc : (cfg.chunks.take cfg.overlap).length * cfg.width_chunk < U32 := by
    rw [hcovlen]
    have : cfg.overlap * cfg.width_chunk ≤ cfg.step * cfg.width_chunk :=
      Nat.mul_le_mul_right _ (by omega)
    omega
  have hendlen : (cfg.chunks.drop (cfg.chunks.length - cfg.overlap)).length = cfg.overlap := by
    rw [List.length_drop]
    omega
  have hendne : cfg.chunks.drop (cfg.chunks.length - cfg.overlap) ≠ [] := by
    intro hx
    rw [hx] at hendlen
    simp at hendlen
    omega
  have hendwc : (cfg.chunks.drop (cfg.chunks.length - cfg.overlap)).length *
      cfg.width_chunk < U32 := by
    rw [hendlen]
    have : cfg.overlap * cfg.width_chunk ≤ cfg.step * cfg.width_chunk :=
      Nat.mul_le_mul_right _ (by omega)
    omega
  have hwin : ∀ w ∈ divideCore cfg.chunks cfg.step cfg.overlap,
      w ≠ [] ∧ w.length * cfg.width_chunk < U32 ∧ cfg.overlap ≤ w.length := by
    intro w hw
    obtain ⟨hwo, hwst⟩ := divideCore_window_bounds cfg.chunks cfg.step cfg.overlap h1 h2 w hw
    refine ⟨?_, ?_, by omega⟩
    · intro hx
      rw [hx] at hwo
      simp at hwo
    · have : w.length * cfg.width_chunk ≤ cfg.step * cfg.width_chunk :=
        Nat.mul_le_mul_right _ hwst
      omega
  unfold combain
  rw [hdiv]
  dsimp only
  rw [genEndpointStep_ok cfg env (cfg.chunks.take cfg.overlap) "cover"
    cfg.video_cover_time _ hcovne hcovwc hwc hr hs (he _)]
  dsimp only [Bind.bind, Except.bind]
  rw [runMids_ok cfg env hwc hsw hr hs he
    (divideCore cfg.chunks cfg.step cfg.overlap) 0 _ hwin]
  dsimp only [Bind.bind, Except.bind]
  rw [genEndpointStep_ok cfg env (cfg.chunks.drop (cfg.chunks.length - cfg.overlap))
    "ending" cfg.video_ending_time _ hendne hendwc hwc hr hs (he _)]
  dsimp only [Bind.bind, Except.bind]
  unfold writeListStep
  rw [if_pos hwl]
  dsimp only [Bind.bind, Except.bind]
  unfold concatStep
  rw [if_pos hco]
  dsimp only [Bind.bind, Except.bind, Pure.pure, Except.pure]
  unfold cleanupStep
  simp

lemma combain_midfail (cfg : Config) (env : Env) (saveName : String) (k : ℕ)
    (h1 : cfg.overlap < cfg.chunks.length) (h2 : cfg.overlap < cfg.step)
    (hov : 0 < cfg.overlap) (hstepwc : cfg.step * cfg.width_chunk < U32)
    (hwc : 0 < cfg.width_chunk) (hsw : cfg.video_swip_speed ≠ 0)
    (hr : ∀ c, env.renderOk c = true) (hs : ∀ n, env.saveOk n = true)
    (hk : k < (divideCore cfg.chunks cfg.step cfg.overlap).length)
    (heCov : env.encodeOk "cover.mp4" = true)
    (hprev : ∀ j, j < k → env.encodeOk (midMp4 j) = true)
    (hfailv : env.encodeOk (midMp4 k) = false) :
    combain cfg env saveName =
      { err := some .ffmpegError,
        fs := insert (midPng k)
          (midFsAcc 0 ((divideCore cfg.chunks cfg.step cfg.overlap).take k)
            (insert "cover.mp4" (insert "cover.png" ∅))),
        calls := .endpoint "cover.png" "cover.mp4" cfg.video_cover_time ::
          (List.enumFrom 0 ((divideCore cfg.chunks cfg.step cfg.overlap).take (k + 1))).map
            (fun p => midCall cfg p.1 p.2),
        manifest := none,
        composed := ("cover.png", cfg.chunks.take cfg.overlap) ::
          (List.enumFrom 0 ((divideCore cfg.chunks cfg.step cfg.overlap).take (k + 1))).map
            (fun p => (midPng p.1, p.2)) } := by
  have hdiv : divideRun cfg.chunks cfg.step cfg.overlap =
      .ok (divideCore cfg.chunks cfg.step cfg.overlap) := by
    unfold divideRun
    rw [if_neg (by omega), if_neg (by omega)]
  have hcovlen : (cfg.chunks.take cfg.overlap).length = cfg.overlap := by
    rw [List.length_take]
    omega
  have hcovne : cfg.chunks.take cfg.overlap ≠ [] := by
    intro hx
    rw [hx] at hcovlen
    simp at hcovlen
    omega
  have hcovwc : (cfg.chunks.take cfg.overlap).length * cfg.width_chunk < U32 := by
    rw [hcovlen]
    have : cfg.overlap * cfg.width_chunk ≤ cfg.step * cfg.width_chunk :=
      Nat.mul_le_mul_right _ (by omega)
    omega
  have hwin : ∀ w ∈ divideCore cfg.chunks cfg.step cfg.overlap,
      w ≠ [] ∧ w.length * cfg.width_chunk < U32 ∧ cfg.overlap ≤ w.length := by
    intro w hw
    obtain ⟨hwo, hwst⟩ := divideCore_window_bounds cfg.chunks cfg.step cfg.overlap h1 h2 w hw
    refine ⟨?_, ?_, by omega⟩
    · intro hx
      rw [hx] at hwo
      simp at hwo
    · have : w.length * cfg.width_chunk ≤ cfg.step * cfg.width_chunk :=
        Nat.mul_le_mul_right _ hwst
      omega
  unfold combain
  rw [hdiv]
  dsimp only
  rw [genEndpointStep_ok cfg env (cfg.chunks.take cfg.overlap) "cover"
    cfg.video_cover_time _ hcovne hcovwc hwc hr hs heCov]
  dsimp only [Bind.bind, Except.bind]
  rw [runMids_fail cfg env hwc hsw hr hs
    (divideCore cfg.chunks cfg.step cfg.overlap) k 0 _ hk hwin
    (fun j hj => by simpa using hprev j hj) (by simpa using hfailv)]
  dsimp only [Bind.bind, Except.bind]
  simp

/-! ### Membership and file-name helper lemmas -/

lemma mem_foldl_erase (l : List String) :
    ∀ (s : Finset String) (x : String),
      (x ∈ l.foldl (fun f r => f.erase r) s) ↔ (x ∈ s ∧ x ∉ l)
  | s, x => by
    induction l generalizing s with
    | nil => simp
    | cons a l ih =>
      rw [List.foldl_cons, ih]
      simp only [Finset.mem_erase, List.mem_cons]
      constructor
      · rintro ⟨⟨hxa, hxs⟩, hxl⟩
        exact ⟨hxs, by tauto⟩
      · rintro ⟨hxs, hno⟩
        exact ⟨⟨fun hxa => hno (Or.inl hxa), hxs⟩, fun hxl => hno (Or.inr hxl)⟩

lemma mem_midFsAcc :
    ∀ (ws : List (List Chunk)) (i : ℕ) (base : Finset String) (x : String),
      x ∈ midFsAcc i ws base ↔
        x ∈ base ∨ ∃ j, j < ws.length ∧ (x = midPng (i + j) ∨ x = midMp4 (i + j))
  | [], i, base, x => by simp [midFsAcc]
  | w :: rest, i, base, x => by
    rw [show midFsAcc i (w :: rest) base =
      midFsAcc (i + 1) rest (insert (midMp4 i) (insert (midPng i) base)) from rfl]
    rw [mem_midFsAcc rest (i + 1) _ x]
    simp only [Finset.mem_insert, List.length_cons]
    constructor
    · rintro ((h | h | h) | ⟨j, hj, hx⟩)
      · exact Or.inr ⟨0, by omega, Or.inr (by simpa using h)⟩
      · exact Or.inr ⟨0, by omega, Or.inl (by simpa using h)⟩
      · exact Or.inl h
      · refine Or.inr ⟨j + 1, by omega, ?_⟩
        rwa [show i + (j + 1) = i + 1 + j from by omega]
    · rintro (h | ⟨j, hj, hx⟩)
      · exact Or.inl (Or.inr (Or.inr h))
      · cases j with
        | zero =>
          rcases hx with hx | hx
          · exact Or.inl (Or.inr (Or.inl (by simpa using hx)))
          · exact Or.inl (Or.inl (by simpa using hx))
        | succ j =>
          refine Or.inr ⟨j, by omega, ?_⟩
          rwa [show i + (j + 1) = i + 1 + j from by omega] at hx

lemma enumFrom_map_fst_comp {α β : Type} (f : ℕ → β) :
    ∀ (l : List α) (n : ℕ),
      (List.enumFrom n l).map (fun p => f p.1) = (List.range' n l.length).map f
  | [], n => by simp
  | a :: l, n => by
    rw [show List.enumFrom n (a :: l) = (n, a) :: List.enumFrom (n + 1) l from rfl]
    rw [show (a :: l).length = l.length + 1 from rfl, List.range'_succ]
    simp only [List.map_cons]
    rw [enumFrom_map_fst_comp f l (n + 1)]

/-- Two strings with distinct last characters of their (nonempty) suffixes
differ, whatever their prefixes. -/
lemma append_ne_of_getLast_ne (s t p q : String) (hp : p.data ≠ []) (hq : q.data ≠ [])
    (h : p.data.getLast? ≠ q.data.getLast?) : s ++ p ≠ t ++ q := by
  intro he
  have hd : s.data ++ p.data = t.data ++ q.data := congrArg String.data he
  have hg := congrArg List.getLast? hd
  rw [List.getLast?_append, List.getLast?_append] at hg
  obtain ⟨a, ha⟩ := Option.isSome_iff_exists.mp (List.getLast?_isSome.mpr hp)
  obtain ⟨b, hb⟩ := Option.isSome_iff_exists.mp (List.getLast?_isSome.mpr hq)
  rw [ha, hb] at hg
  simp only [Option.or] at hg
  rw [ha, hb] at h
  exact h hg

lemma png_ne_mp4 (s t : String) : s ++ ".png" ≠ t ++ ".mp4" :=
  append_ne_of_getLast_ne s t ".png" ".mp4" (by decide) (by decide) (by decide)

lemma txt_ne_mp4 (t : String) : "list.txt" ≠ t ++ ".mp4" := by
  rw [show ("list.txt" : String) = "list" ++ ".txt" from rfl]
  exact append_ne_of_getLast_ne "list" t ".txt" ".mp4" (by decide) (by decide) (by decide)

lemma txt_ne_png (t : String) : "list.txt" ≠ t ++ ".png" := by
  rw [show ("list.txt" : String) = "list" ++ ".txt" from rfl]
  exact append_ne_of_getLast_ne "list" t ".txt" ".png" (by decide) (by decide) (by decide)

/-- A string shorter than the suffix `p` cannot be any string extended by `p`. -/
lemma ne_append_of_short (x t p : String) (h : x.data.length < p.data.length) :
    x ≠ t ++ p := by
  intro he
  have hd : x.data = t.data ++ p.data := congrArg String.data he
  have := congrArg List.length hd
  rw [List.length_append] at this
  omega

lemma mem_successResults (ws : List (List Chunk)) (x : String) :
    x ∈ ("cover.mp4" ::
        ((List.enumFrom 0 ws).map (fun p => midMp4 p.1) ++ ["ending.mp4"])) ↔
      x = "cover.mp4" ∨ (∃ j, j < ws.length ∧ x = midMp4 j) ∨ x = "ending.mp4" := by
  rw [show ((List.enumFrom 0 ws).map (fun p => midMp4 p.1)) =
    (List.range' 0 ws.length).map midMp4 from enumFrom_map_fst_comp midMp4 ws 0]
  rw [← List.range_eq_range']
  simp only [List.mem_cons, List.mem_append, List.mem_map, List.mem_range,
    List.mem_nil_iff, or_false]
  constructor
  · rintro (h | (⟨a, ha, rfl⟩ | h))
    · exact Or.inl h
    · exact Or.inr (Or.inl ⟨a, ha, rfl⟩)
    · exact Or.inr (Or.inr h)
  · rintro (h | ⟨j, hj, rfl⟩ | h)
    · exact Or.inl h
    · exact Or.inr (Or.inl ⟨j, hj, rfl⟩)
    · exact Or.inr (Or.inr h)

/-! ### Claim C5 -/

/-- C5 counterexample: a fully successful run of the worked example leaves
`cover.png` (and the other stills) and `list.txt` in the working directory —
the cleanup loop deletes only the clip files in `results` — so the directory
does not hold only the final output file. -/
theorem C5_counterexample :
    (combain cfg5 envAll "result.mp4").err = none ∧
    "cover.png" ∈ (combain cfg5 envAll "result.mp4").fs ∧
    "list.txt" ∈ (combain cfg5 envAll "result.mp4").fs ∧
    (combain cfg5 envAll "result.mp4").fs ≠ {"result.mp4"} := by
  refine ⟨by decide, by decide, by decide, by decide⟩

/-- C5 (amended): after a run in which every composition, encoding, the
manifest write and the concatenation succeed, every intermediate clip file
(`cover.mp4`, numbered mp4s, `ending.mp4`) is deleted — deletion happens only
after the concatenation succeeds — but the intermediate stills (`cover.png`,
numbered pngs, `ending.png`) and the manifest `list.txt` are NOT deleted: the
directory holds the output, the stills and `list.txt`.  A run whose mid
segment `k` fails at encoding leaves the cover still and clip, the stills and
clips of mids `0..k-1` and mid `k`'s still on disk, and neither the output
file nor `list.txt` exists (no manifest was written). -/
theorem C5_cleanup_behavior :
    (∀ (cfg : Config) (env : Env) (saveName : String),
      cfg.overlap < cfg.chunks.length → cfg.overlap < cfg.step →
      0 < cfg.overlap → cfg.step * cfg.width_chunk < U32 →
      0 < cfg.width_chunk → cfg.video_swip_speed ≠ 0 →
      (∀ c, env.renderOk c = true) → (∀ n, env.saveOk n = true) →
      (∀ n, env.encodeOk n = true) → env.writeListOk = true → env.concatOk = true →
      saveName ≠ "cover.mp4" → saveName ≠ "ending.mp4" →
      (∀ j, saveName ≠ midMp4 j) →
      ((combain cfg env saveName).err = none ∧
       "cover.mp4" ∉ (combain cfg env saveName).fs ∧
       (∀ j, j < (divideCore cfg.chunks cfg.step cfg.overlap).length →
         midMp4 j ∉ (combain cfg env saveName).fs) ∧
       "ending.mp4" ∉ (combain cfg env saveName).fs ∧
       "cover.png" ∈ (combain cfg env saveName).fs ∧
       (∀ j, j < (divideCore cfg.chunks cfg.step cfg.overlap).length →
         midPng j ∈ (combain cfg env saveName).fs) ∧
       "ending.png" ∈ (combain cfg env saveName).fs ∧
       "list.txt" ∈ (combain cfg env saveName).fs ∧
       saveName ∈ (combain cfg env saveName).fs)) ∧
    (∀ (cfg : Config) (env : Env) (saveName : String) (k : ℕ),
      cfg.overlap < cfg.chunks.length → cfg.overlap < cfg.step →
      0 < cfg.overlap → cfg.step * cfg.width_chunk < U32 →
      0 < cfg.width_chunk → cfg.video_swip_speed ≠ 0 →
      (∀ c, env.renderOk c = true) → (∀ n, env.saveOk n = true) →
      k < (divideCore cfg.chunks cfg.step cfg.overlap).length →
      env.encodeOk "cover.mp4" = true →
      (∀ j, j < k → env.encodeOk (midMp4 j) = true) →
      env.encodeOk (midMp4 k) = false →
      saveName ≠ "cover.png" → saveName ≠ "cover.mp4" →
      (∀ j, saveName ≠ midPng j) → (∀ j, saveName ≠ midMp4 j) →
      ((combain cfg env saveName).err = some .ffmpegError ∧
       "cover.png" ∈ (combain cfg env saveName).fs ∧
       "cover.mp4" ∈ (combain cfg env saveName).fs ∧
       (∀ j, j < k → midPng j ∈ (combain cfg env saveName).fs ∧
         midMp4 j ∈ (combain cfg env saveName).fs) ∧
       midPng k ∈ (combain cfg env saveName).fs ∧
       saveName ∉ (combain cfg env saveName).fs ∧
       "list.txt" ∉ (combain cfg env saveName).fs ∧
       (combain cfg env saveName).manifest = none)) := by
  constructor
  · intro cfg env saveName h1 h2 hov hstepwc hwc hsw hr hs he hwl hco hsv1 hsv2 hsv3
    rw [combain_ok cfg env saveName h1 h2 hov hstepwc hwc hsw hr hs he hwl hco]
    dsimp only
    refine ⟨rfl, ?_, ?_, ?_, ?_, ?_, ?_, ?_, ?_⟩
    · rw [mem_foldl_erase]
      rintro ⟨-, hnR⟩
      exact hnR (List.mem_cons_self _ _)
    · intro j hj
      rw [mem_foldl_erase]
      rintro ⟨-, hnR⟩
      apply hnR
      rw [mem_successResults]
      exact Or.inr (Or.inl ⟨j, hj, rfl⟩)
    · rw [mem_foldl_erase]
      rintro ⟨-, hnR⟩
      apply hnR
      rw [mem_successResults]
      exact Or.inr (Or.inr rfl)
    · rw [mem_foldl_erase]
      refine ⟨?_, ?_⟩
      · simp [Finset.mem_insert, mem_midFsAcc]
      · rw [mem_successResults]
        rintro (h | ⟨j, hj, h⟩ | h)
        · exact png_ne_mp4 "cover" "cover" h
        · exact png_ne_mp4 "cover" (pad2 j) h
        · exact png_ne_mp4 "cover" "ending" h
    · intro j hj
      rw [mem_foldl_erase]
      refine ⟨?_, ?_⟩
      · simp only [Finset.mem_insert]
        refine Or.inr (Or.inr (Or.inr (Or.inr ?_)))
        rw [mem_midFsAcc]
        exact Or.inr ⟨j, hj, Or.inl (by rw [Nat.zero_add])⟩
      · rw [mem_successResults]
        rintro (h | ⟨j', hj', h⟩ | h)
        · exact png_ne_mp4 (pad2 j) "cover" h
        · exact png_ne_mp4 (pad2 j) (pad2 j') h
        · exact png_ne_mp4 (pad2 j) "ending" h
    · rw [mem_foldl_erase]
      refine ⟨by simp [Finset.mem_insert], ?_⟩
      rw [mem_successResults]
      rintro (h | ⟨j, hj, h⟩ | h)
      · exact png_ne_mp4 "ending" "cover" h
      · exact png_ne_mp4 "ending" (pad2 j) h
      · exact png_ne_mp4 "ending" "ending" h
    · rw [mem_foldl_erase]
      refine ⟨by simp [Finset.mem_insert], ?_⟩
      rw [mem_successResults]
      rintro (h | ⟨j, hj, h⟩ | h)
      · exact txt_ne_mp4 "cover" h
      · exact txt_ne_mp4 (pad2 j) h
      · exact txt_ne_mp4 "ending" h
    · rw [mem_foldl_erase]
      refine ⟨Finset.mem_insert_self _ _, ?_⟩
      rw [mem_successResults]
      rintro (h | ⟨j, hj, h⟩ | h)
      · exact hsv1 h
      · exact hsv3 j h
      · exact hsv2 h
  · intro cfg env saveName k h1 h2 hov hstepwc hwc hsw hr hs hk heCov hprev hfailv
      hsv1 hsv2 hsv3 hsv4
    rw [combain_midfail cfg env saveName k h1 h2 hov hstepwc hwc hsw hr hs hk heCov
      hprev hfailv]
    dsimp only
    have hklen : ((divideCore cfg.chunks cfg.step cfg.overlap).take k).length = k := by
      rw [List.length_take]
      omega
    refine ⟨rfl, ?_, ?_, ?_, Finset.mem_insert_self _ _, ?_, ?_, rfl⟩
    · simp [Finset.mem_insert, mem_midFsAcc]
    · simp [Finset.mem_insert, mem_midFsAcc]
    · intro j hj
      constructor
      · simp only [Finset.mem_insert]
        refine Or.inr ?_
        rw [mem_midFsAcc]
        rw [hklen]
        exact Or.inr ⟨j, hj, Or.inl (by rw [Nat.zero_add])⟩
      · simp only [Finset.mem_insert]
        refine Or.inr ?_
        rw [mem_midFsAcc]
        rw [hklen]
        exact Or.inr ⟨j, hj, Or.inr (by rw [Nat.zero_add])⟩
    · simp only [Finset.mem_insert]
      rintro (h | h)
      · exact hsv3 k h
      · rw [mem_midFsAcc] at h
        rcases h with h | ⟨j, hj, h | h⟩
        · simp only [Finset.mem_insert] at h
          rcases h with h | h | h
          · exact hsv2 h
          · exact hsv1 h
          · exact absurd h (Finset.not_mem_empty _)
        · exact hsv3 _ (by simpa using h)
        · exact hsv4 _ (by simpa using h)
    · simp only [Finset.mem_insert]
      rintro (h | h)
      · exact txt_ne_png (pad2 k) h
      · rw [mem_midFsAcc] at h
        rcases h with h | ⟨j, hj, h | h⟩
        · simp only [Finset.mem_insert] at h
          rcases h with h | h | h
          · exact txt_ne_mp4 "cover" h
          · exact txt_ne_png "cover" h
          · exact absurd h (Finset.not_mem_empty _)
        · exact txt_ne_png (pad2 (0 + j)) h
        · exact txt_ne_mp4 (pad2 (0 + j)) h

/-- The environment in which everything succeeds except encoding the second
mid clip `01.mp4`. -/
def env5fail : Env :=
  ⟨fun _ => true, fun _ => true, fun s => !(s == "01.mp4"), true, true⟩

/-- Witness for C5: the worked example run with every step succeeding, and the
same run with mid segment 1's encoding failing. -/
theorem C5_witness :
    ((combain cfg5 envAll "out").err = none ∧
      "cover.png" ∈ (combain cfg5 envAll "out").fs ∧
      "cover.mp4" ∉ (combain cfg5 envAll "out").fs ∧
      "out" ∈ (combain cfg5 envAll "out").fs) ∧
    ((combain cfg5 env5fail "out").err = some RunError.ffmpegError ∧
      midPng 1 ∈ (combain cfg5 env5fail "out").fs ∧
      "list.txt" ∉ (combain cfg5 env5fail "out").fs ∧
      "out" ∉ (combain cfg5 env5fail "out").fs) := by
  have hsucc := C5_cleanup_behavior.1 cfg5 envAll "out" (by decide) (by decide)
    (by decide) (by decide) (by decide) (by decide) (fun _ => rfl) (fun _ => rfl)
    (fun _ => rfl) rfl rfl (by decide) (by decide)
    (fun j => ne_append_of_short "out" (pad2 j) ".mp4" (by decide))
  have hfail := C5_cleanup_behavior.2 cfg5 env5fail "out" 1 (by decide) (by decide)
    (by decide) (by decide) (by decide) (by decide) (fun _ => rfl) (fun _ => rfl)
    (by decide) (by decide)
    (fun j hj => by
      have h0 : j = 0 := by omega
      subst h0
      decide)
    (by decide) (by decide) (by decide)
    (fun j => ne_append_of_short "out" (pad2 j) ".png" (by decide))
    (fun j => ne_append_of_short "out" (pad2 j) ".mp4" (by decide))
  exact ⟨⟨hsucc.1, hsucc.2.2.2.2.1, hsucc.2.1, hsucc.2.2.2.2.2.2.2.2⟩,
    ⟨hfail.1, hfail.2.2.2.2.1, hfail.2.2.2.2.2.2.1, hfail.2.2.2.2.2.1⟩⟩

/-! ### Claim C7 -/

/-- C7: a successful `combain` run invokes the encoder in the strict order
cover endpoint segment (duration `video_cover_time`), one scroll mid segment
per partition window in window order with zero-padded numbered names, ending
endpoint segment (duration `video_ending_time`), and finally the stream-copy
concatenation; the cover is composed from the first `overlap` chunks and the
ending from the last `overlap` chunks; and the persisted manifest `list.txt`
holds one line `file <name>` per clip in exactly that production order. -/
theorem C7_segment_order (cfg : Config) (env : Env) (saveName : String)
    (h1 : cfg.overlap < cfg.chunks.length) (h2 : cfg.overlap < cfg.step)
    (hov : 0 < cfg.overlap) (hstepwc : cfg.step * cfg.width_chunk < U32)
    (hwc : 0 < cfg.width_chunk) (hsw : cfg.video_swip_speed ≠ 0)
    (hr : ∀ c, env.renderOk c = true) (hs : ∀ n, env.saveOk n = true)
    (he : ∀ n, env.encodeOk n = true) (hwl : env.writeListOk = true)
    (hco : env.concatOk = true) :
    (combain cfg env saveName).err = none ∧
    (combain cfg env saveName).calls =
      .endpoint "cover.png" "cover.mp4" cfg.video_cover_time ::
        ((List.enumFrom 0 (divideCore cfg.chunks cfg.step cfg.overlap)).map
          (fun p => midCall cfg p.1 p.2) ++
          [.endpoint "ending.png" "ending.mp4" cfg.video_ending_time,
           .concatSplice "list.txt" saveName]) ∧
    (combain cfg env saveName).composed =
      ("cover.png", cfg.chunks.take cfg.overlap) ::
        ((List.enumFrom 0 (divideCore cfg.chunks cfg.step cfg.overlap)).map
          (fun p => (midPng p.1, p.2)) ++
          [("ending.png", cfg.chunks.drop (cfg.chunks.length - cfg.overlap))]) ∧
    (combain cfg env saveName).manifest =
      some ("file cover.mp4" ::
        ((List.enumFrom 0 (divideCore cfg.chunks cfg.step cfg.overlap)).map
          (fun p => "file " ++ midMp4 p.1) ++ ["file ending.mp4"])) := by
  rw [combain_ok cfg env saveName h1 h2 hov hstepwc hwc hsw hr hs he hwl hco]
  refine ⟨rfl, rfl, rfl, ?_⟩
  dsimp only
  simp

/-- Witness for C7 at the worked example: 3 windows, numbered `00`, `01`,
`02`, manifest in production order. -/
theorem C7_witness :
    (combain cfg5 envAll "result.mp4").calls =
      Call.endpoint "cover.png" "cover.mp4" 3 ::
        ((List.enumFrom 0 (divideCore cfg5.chunks cfg5.step cfg5.overlap)).map
          (fun p => midCall cfg5 p.1 p.2) ++
          [Call.endpoint "ending.png" "ending.mp4" 3,
           Call.concatSplice "list.txt" "result.mp4"]) ∧
    (combain cfg5 envAll "result.mp4").manifest =
      some ["file cover.mp4", "file 00.mp4", "file 01.mp4", "file 02.mp4",
        "file ending.mp4"] := by
  have h := C7_segment_order cfg5 envAll "result.mp4" (by decide) (by decide)
    (by decide) (by decide) (by decide) (by decide) (fun _ => rfl) (fun _ => rfl)
    (fun _ => rfl) rfl rfl
  refine ⟨h.2.1, ?_⟩
  rw [h.2.2.2]
  decide

end SwipImgToVideo
